import Mathlib

/-!
# Verification of the directory crawler (`7-crawl_directory_pages.py`)

A shallow embedding of the crawl frontier controller and its helpers:
the URL normalizer, the scope filter, the link extractor, the result
recorder and the crawl loop of class `DirectoryCrawler`.  Python strings
are embedded as Lean `String`s (manipulated through their `List Char`
data), Python `None`-able values as `Option`s, exceptions as `Option`
results, and the external fetch / HTML-parsing collaborators as an
oracle the loop consumes.  The crawl loop itself is driven by explicit
fuel, since the source imposes no a-priori bound on the number of
iterations.
-/

/-! ## String helpers (Python `str` operations used by the source) -/

/-- Characters before the first occurrence of `c`, and the characters after
it; with no occurrence the second component is empty.  Models Python's
`s.split(c, 1)` pair. -/
def splitAtChar (c : Char) (l : List Char) : List Char × List Char :=
  (l.takeWhile (fun x => x ≠ c), (l.dropWhile (fun x => x ≠ c)).drop 1)

/-- Python `s.rstrip(c)` on character lists. -/
def rstripChar (c : Char) (l : List Char) : List Char :=
  (l.reverse.dropWhile (fun x => x = c)).reverse

/-- Python `s.strip(c)` on character lists. -/
def stripChar (c : Char) (l : List Char) : List Char :=
  rstripChar c (l.dropWhile (fun x => x = c))

/-- Python `s.strip()` (no argument): remove leading and trailing
whitespace. -/
def pyStrip (s : String) : String :=
  String.mk (((s.data.dropWhile Char.isWhitespace).reverse.dropWhile
    Char.isWhitespace).reverse)

/-- Python `s.startswith(pre)`. -/
def pyStartsWith (s pre : String) : Bool :=
  pre.data.isPrefixOf s.data

/-- Python `s.endswith(suf)`. -/
def pyEndsWith (s suf : String) : Bool :=
  suf.data.isSuffixOf s.data

/-! ## `urllib.parse.urlparse`

A model of CPython's `urlsplit`/`urlparse` restricted to what the crawler
reads (`scheme`, `netloc`, `path`): scheme recognition with the standard
scheme-character check and lowercasing, netloc extraction after `//` with
the `Invalid IPv6 URL` `ValueError` modelled as `none`, then fragment and
query splitting in CPython's order.  The `;params` split of `urlparse` is
omitted (the source never reads `params`). -/

/-- Valid characters of a URL scheme after the first (CPython's
`scheme_chars`). -/
def schemeChar (ch : Char) : Bool :=
  ch.isAlphanum || ch = '+' || ch = '-' || ch = '.'

/-- Split a leading `scheme:` off a URL, returning `(scheme, rest)`;
the scheme is empty when the text before the first `:` is not a valid
scheme.  The scheme is lowercased, as CPython does. -/
def parseScheme (l : List Char) : List Char × List Char :=
  let before := (splitAtChar ':' l).1
  let after := (splitAtChar ':' l).2
  if before.length = l.length then ([], l)
  else
    match before with
    | [] => ([], l)
    | c0 :: _ =>
      if c0.isAlpha && before.all schemeChar then (before.map Char.toLower, after)
      else ([], l)

/-- Character that ends the netloc portion. -/
def netlocEnd (ch : Char) : Bool :=
  ch = '/' || ch = '?' || ch = '#'

/-- Extract the netloc after a leading `//`; `none` models the
`ValueError: Invalid IPv6 URL` CPython raises on unbalanced brackets. -/
def parseNetloc (l : List Char) : Option (List Char × List Char) :=
  match l with
  | '/' :: '/' :: rest =>
    let netloc := rest.takeWhile (fun ch => ¬ netlocEnd ch)
    let remainder := rest.dropWhile (fun ch => ¬ netlocEnd ch)
    if (netloc.contains '[' && !netloc.contains ']')
        || (netloc.contains ']' && !netloc.contains '[') then none
    else some (netloc, remainder)
  | _ => some ([], l)

/-- The components of a parsed URL that the crawler reads. -/
structure UrlParts where
  scheme : String
  netloc : String
  path : String
  query : String
  fragment : String
deriving DecidableEq

/-- Model of `urllib.parse.urlparse`; `none` models the `ValueError`
raised on unbalanced IPv6 brackets in the netloc. -/
def urlparse (url : String) : Option UrlParts :=
  let sr := parseScheme url.data
  match parseNetloc sr.2 with
  | none => none
  | some (netloc, rest) =>
    let (beforeFrag, fragment) := splitAtChar '#' rest
    let (path, query) := splitAtChar '?' beforeFrag
    some ⟨String.mk sr.1, String.mk netloc, String.mk path,
          String.mk query, String.mk fragment⟩

/-! ## `urllib.parse.urljoin`

Model of the external `urllib.parse.urljoin` collaborator for the cases
the crawler exercises: absolute URLs pass through, protocol-relative and
root-relative references are resolved against the base's scheme and
netloc, and other references are resolved against the base's directory.
Dot-segment resolution is not modelled. -/
def urljoin (base url : String) : String :=
  if url = "" then base
  else if (parseScheme url.data).1 ≠ [] then url
  else
    match urlparse base with
    | none => url
    | some b =>
      if url.data.take 2 = ['/', '/'] then b.scheme ++ ":" ++ url
      else if url.data.take 1 = ['/'] then b.scheme ++ "://" ++ b.netloc ++ url
      else
        let bdir := (b.path.data.reverse.dropWhile (fun ch => ch ≠ '/')).reverse
        let bdir := if bdir = [] then ['/'] else bdir
        b.scheme ++ "://" ++ b.netloc ++ String.mk bdir ++ url

/-! ## The crawler's immutable configuration (`DirectoryCrawler.__init__`) -/

/-- The fields `DirectoryCrawler.__init__` sets and the crawl logic reads. -/
structure Crawler where
  directory_url : String
  max_depth : Nat
  max_pages : Nat
  output_dir : String
  base_domain : String
  base_scheme : String
  directory_path : String
deriving DecidableEq

/-- Constructor `DirectoryCrawler.__init__`: normalizes `directory_url` to end in `/`,
derives the default output directory name, and stores the scheme, netloc
and path of the *original* `directory_url` argument (lines 27-48).
`none` models `urlparse` raising during construction. -/
def initCrawler (directory_url : String) (max_depth max_pages : Nat)
    (output_dir : Option String) : Option Crawler :=
  match urlparse directory_url with
  | none => none
  | some parsed =>
    let out :=
      match output_dir with
      | some d => d
      | none =>
        let dir_name := String.mk ((stripChar '/' parsed.path.data).map
          (fun ch => if ch = '/' then '_' else ch))
        let dir_name := if dir_name = "" then "root" else dir_name
        "crawled_" ++ parsed.netloc ++ "_" ++ dir_name
    some { directory_url := String.mk (rstripChar '/' directory_url.data ++ ['/'])
           max_depth := max_depth
           max_pages := max_pages
           output_dir := out
           base_domain := parsed.netloc
           base_scheme := parsed.scheme
           directory_path := parsed.path }

/-! ## Scope filter (`is_in_target_directory`, lines 55-68) -/

/-- Function `DirectoryCrawler.is_in_target_directory`: same netloc and the path
starts with `directory_path`; a parse error yields `false` (the bare
`except` of the source). -/
def is_in_target_directory (c : Crawler) (url : String) : Bool :=
  match urlparse url with
  | none => false
  | some parsed =>
    if parsed.netloc ≠ c.base_domain then false
    else pyStartsWith parsed.path c.directory_path

/-! ## URL normalizer (`normalize_url`, lines 70-79) -/

/-- Not the fragment separator (`url.split('#')[0]` keeps characters for
which this holds, up to the first `#`). -/
def notHash (ch : Char) : Bool := ch ≠ '#'

/-- The body of `normalize_url` on character lists: strip the fragment,
then prefix the scheme for protocol-relative input or `scheme://domain`
for root-relative input. -/
def normalizeList (scheme domain url : List Char) : List Char :=
  let u := url.takeWhile notHash
  if u.take 2 = ['/', '/'] then scheme ++ ':' :: u
  else if u.take 1 = ['/'] then scheme ++ ':' :: '/' :: '/' :: domain ++ u
  else u

/-- Function `DirectoryCrawler.normalize_url`. -/
def normalize_url (c : Crawler) (url : String) : String :=
  String.mk (normalizeList c.base_scheme.data c.base_domain.data url.data)

/-! ## Result recorder (`get_safe_filename`, `save_page_content`) -/

/-- Function `DirectoryCrawler.get_safe_filename` (lines 81-97); `none` models the
(caught upstream) exception when `urlparse` raises. Python's Unicode
`isalnum` is approximated by `Char.isAlphanum`. -/
def get_safe_filename (url : String) : Option String :=
  (urlparse url).map fun parsed =>
    let path := match stripChar '/' parsed.path.data with
      | [] => "index".data
      | l => l
    let filename := path.map (fun ch => if ch = '/' then '_' else ch)
    let filename := filename.map
      (fun ch => if ch.isAlphanum || ch = '_' || ch = '-' || ch = '.' then ch else '_')
    let filename := if filename.length > 100 then filename.take 100 else filename
    let filename := if pyEndsWith (String.mk filename) ".md" then filename
      else filename ++ ".md".data
    String.mk filename

/-- Function `DirectoryCrawler.save_page_content` (lines 99-115): the whole body is
wrapped in `try/except` returning `None`; `io_ok` is the oracle for the
file write succeeding.  On success the returned storage path is
`os.path.join(output_dir, filename)`. -/
def save_page_content (c : Crawler) (io_ok : Bool) (url : String) : Option String :=
  match get_safe_filename url with
  | none => none
  | some filename =>
    if io_ok then some (c.output_dir ++ "/" ++ filename) else none

/-! ## Link extractor (`extract_links_from_html`, lines 117-137) -/

/-- The discarded non-navigable href schemes
(`href.startswith(('javascript:', 'mailto:', 'tel:'))`). -/
def non_navigable (href : String) : Bool :=
  pyStartsWith href "javascript:" || pyStartsWith href "mailto:"
    || pyStartsWith href "tel:"

/-- Function `DirectoryCrawler.extract_links_from_html`.  The external
BeautifulSoup collaborator is an input: `none` models the `except`
branch (any parsing failure, yielding `[]`), `some hrefs` the sequence
of `href` attribute values found.  Each href is stripped, discarded if
empty or non-navigable, joined against `base_url`, normalized, kept when
in scope, and the resulting list is deduplicated (`list(set(links))`). -/
def extract_links_from_html (c : Crawler) (soup : Option (List String))
    (base_url : String) : List String :=
  match soup with
  | none => []
  | some hrefs =>
    let links := hrefs.filterMap fun href0 =>
      let href := pyStrip href0
      if href ≠ "" ∧ non_navigable href = false then
        let full_url := urljoin base_url href
        let normalized_url := normalize_url c full_url
        if is_in_target_directory c normalized_url then some normalized_url
        else none
      else none
    links.dedup

/-! ## Crawl state (`crawl_directory`, lines 139-215)

The external fetch collaborator (`AsyncWebCrawler.arun`) and the
filesystem are modelled as an oracle mapping each URL to the outcome the
environment would produce for it. -/

/-- Outcome of fetching one URL, as the loop observes it:
`success` is `result.success`; `markdown = some n` models
`result.markdown` being present with `len(result.markdown.raw_markdown) = n`
(and `none` a falsy `result.markdown`); `html = some soup` models a truthy
`result.html` whose BeautifulSoup parse yields `soup` (`html = none` a falsy
`result.html`); `io_ok` is whether writing the page file succeeds;
`error_message` is `result.error_message`. -/
structure FetchOutcome where
  success : Bool
  markdown : Option Nat
  html : Option (Option (List String))
  io_ok : Bool
  error_message : String
deriving DecidableEq

/-- One entry of `self.crawled_pages`: the dict built at lines 182-188
(success) or 201-209 (failure).  `markdown_length` is `none` for failure
records, whose dict carries no such key. -/
structure PageRecord where
  url : String
  depth : Nat
  filepath : Option String
  markdown_length : Option Nat
  success : Bool
  error : Option String
deriving DecidableEq

/-- The mutable crawl state: `self.visited_urls`, `self.pending_urls`,
`self.crawled_pages`. -/
structure CrawlState where
  visited : List String
  pending : List (String × Nat)
  crawled : List PageRecord
deriving DecidableEq

/-- One iteration of the `while` body (lines 158-209): pop the front item,
skip if visited or beyond `max_depth`, otherwise mark visited, fetch, on
success persist and record and (when `depth < max_depth` and html is
present) extract links and enqueue the unseen ones at `depth + 1`; on
failure record the error. -/
def crawlStep (c : Crawler) (o : String → FetchOutcome) (s : CrawlState) :
    CrawlState :=
  match s.pending with
  | [] => s
  | (url, depth) :: rest =>
    if url ∈ s.visited then { s with pending := rest }
    else if c.max_depth < depth then { s with pending := rest }
    else
      let visited := url :: s.visited
      let r := o url
      if r.success then
        let filepath := save_page_content c r.io_ok url
        let page_info : PageRecord :=
          ⟨url, depth, filepath, some (r.markdown.getD 0), true, none⟩
        let crawled := s.crawled ++ [page_info]
        if depth < c.max_depth then
          match r.html with
          | some soup =>
            let new_links := extract_links_from_html c soup url
            let pending := new_links.foldl
              (fun pend link =>
                if link ∉ visited ∧ link ∉ pend.map Prod.fst then
                  pend ++ [(link, depth + 1)]
                else pend) rest
            ⟨visited, pending, crawled⟩
          | none => ⟨visited, rest, crawled⟩
        else ⟨visited, rest, crawled⟩
      else
        ⟨visited, rest,
          s.crawled ++ [⟨url, depth, none, none, false, some r.error_message⟩]⟩

/-- The `while self.pending_urls and len(self.crawled_pages) < self.max_pages`
loop (line 157), driven by explicit fuel: the source guarantees no bound on
the number of iterations, so the loop is modelled as iterating the guarded
body `fuel` times (a run that stops earlier is unchanged by extra fuel). -/
def crawlLoop (c : Crawler) (o : String → FetchOutcome) :
    Nat → CrawlState → CrawlState
  | 0, s => s
  | fuel + 1, s =>
    if s.pending ≠ [] ∧ s.crawled.length < c.max_pages then
      crawlLoop c o fuel (crawlStep c o s)
    else s

/-- The state seeded at line 155: empty visited set and record list, the
(normalized) directory root pending at depth `0`. -/
def initState (c : Crawler) : CrawlState :=
  ⟨[], [(c.directory_url, 0)], []⟩

/-- Method `DirectoryCrawler.crawl_directory` as a state transformer: run the
loop from the seeded state. -/
def crawl_directory (c : Crawler) (o : String → FetchOutcome) (fuel : Nat) :
    CrawlState :=
  crawlLoop c o fuel (initState c)

/-- Number of records with `success = True`. -/
def countSuccess (s : CrawlState) : Nat :=
  (s.crawled.filter (fun r => r.success)).length

/-! ## Reporter (`generate_report`, lines 217-239) -/

/-- Python truthiness of the `filepath` field (`page['filepath']` is truthy
iff it is neither `None` nor the empty string). -/
def filepathTruthy : Option String → Bool
  | none => false
  | some fp => fp ≠ ""

/-- The lines the report writes for one record (lines 232-236): the status
line always, plus the storage-path line when the record is a success with
a truthy filepath. -/
def report_page_block (p : PageRecord) : List String :=
  let status := if p.success then "✅" else "❌"
  let line1 := status ++ " [" ++ toString p.depth ++ "] " ++ p.url
  if p.success && filepathTruthy p.filepath then
    [line1, "   📄 " ++ p.filepath.getD "" ++ " ("
      ++ toString (p.markdown_length.getD 0) ++ " chars)"]
  else [line1]

/-- The per-page section of the report: one block per record, in original
processing order. -/
def report_page_blocks (pages : List PageRecord) : List (List String) :=
  pages.map report_page_block

/-- Method `DirectoryCrawler.generate_report`: the full report document as a list
of lines. -/
def generate_report (c : Crawler) (pages : List PageRecord) : List String :=
  let success_count := (pages.filter (fun p => p.success)).length
  let total_count := pages.length
  ["# 目录爬取报告",
   "**目标目录**: " ++ c.directory_url,
   "**爬取页面**: " ++ toString pages.length ++ " 个页面",
   "**成功页面**: " ++ toString success_count ++ "/" ++ toString total_count,
   "**最大深度**: " ++ toString c.max_depth,
   "## 页面列表"] ++ (report_page_blocks pages).flatten

/-! ## Concrete instances used by counterexamples and witnesses -/

/-- The crawler `DirectoryCrawler('https://example.com/docs/', 1, 2)`
would construct. -/
def cEx : Crawler :=
  { directory_url := "https://example.com/docs/"
    max_depth := 1
    max_pages := 2
    output_dir := "crawled_example.com_docs"
    base_domain := "example.com"
    base_scheme := "https"
    directory_path := "/docs/" }

/-- An environment in which the directory root succeeds and links to two
in-scope pages, and every other fetch fails. -/
def oEx : String → FetchOutcome := fun u =>
  if u = "https://example.com/docs/" then
    { success := true, markdown := some 10
      html := some (some ["/docs/a.html", "/docs/b.html"])
      io_ok := true, error_message := "" }
  else
    { success := false, markdown := none, html := none
      io_ok := true, error_message := "fetch failed" }

/-- The crawler `DirectoryCrawler('https://example.com/git', 1, 50)`
would construct: the *unnormalized* constructor argument is what gets
parsed into `directory_path` (line 48), so the stored prefix is `/git`
with no trailing separator. -/
def cGit : Crawler :=
  { directory_url := "https://example.com/git/"
    max_depth := 1
    max_pages := 50
    output_dir := "crawled_example.com_git"
    base_domain := "example.com"
    base_scheme := "https"
    directory_path := "/git" }

/-- An environment in which every fetch succeeds with no markdown, no html
and a failing file write. -/
def oSaveFail : String → FetchOutcome := fun _ =>
  { success := true, markdown := none, html := none
    io_ok := false, error_message := "" }

/-! ## Basic lemmas about the loop and the step -/

/-- Sanity check: `cEx` really is what `__init__` builds from
`'https://example.com/docs/'` with `max_depth = 1`, `max_pages = 2`. -/
theorem initCrawler_cEx : initCrawler "https://example.com/docs/" 1 2 none = some cEx := by
  decide

/-- Sanity check: `cGit` really is what `__init__` builds from the slash-less
`'https://example.com/git'` with `max_depth = 1`, `max_pages = 50`. -/
theorem initCrawler_cGit : initCrawler "https://example.com/git" 1 50 none = some cGit := by
  decide

theorem crawlLoop_zero (c : Crawler) (o : String → FetchOutcome) (s : CrawlState) :
    crawlLoop c o 0 s = s := rfl

theorem crawlLoop_succ (c : Crawler) (o : String → FetchOutcome) (n : Nat)
    (s : CrawlState) :
    crawlLoop c o (n + 1) s =
      if s.pending ≠ [] ∧ s.crawled.length < c.max_pages then
        crawlLoop c o n (crawlStep c o s)
      else s := rfl

theorem crawlStep_nil (c : Crawler) (o : String → FetchOutcome) (s : CrawlState)
    (h : s.pending = []) : crawlStep c o s = s := by
  obtain ⟨v, p, cr⟩ := s
  simp only at h
  subst h
  rfl

theorem crawlStep_skip (c : Crawler) (o : String → FetchOutcome) (s : CrawlState)
    (url : String) (d : Nat) (rest : List (String × Nat))
    (h : s.pending = (url, d) :: rest)
    (hskip : url ∈ s.visited ∨ c.max_depth < d) :
    crawlStep c o s = { s with pending := rest } := by
  obtain ⟨v, p, cr⟩ := s
  simp only at h hskip
  subst h
  by_cases hv : url ∈ v
  · simp [crawlStep, hv]
  · rcases hskip with hv' | hd
    · exact absurd hv' hv
    · simp [crawlStep, hv, hd]

/-- Appending discovered links to the queue (line 195-197): the queue is
extended at the tail only, and every appended item carries depth `d + 1`. -/
theorem enqueue_foldl_spec (visited : List String) (d : Nat) :
    ∀ (links : List String) (q : List (String × Nat)),
      ∃ e, links.foldl
          (fun pend link =>
            if link ∉ visited ∧ link ∉ pend.map Prod.fst then
              pend ++ [(link, d + 1)]
            else pend) q = q ++ e ∧ ∀ p ∈ e, p.2 = d + 1 := by
  intro links
  induction links with
  | nil => intro q; exact ⟨[], by simp⟩
  | cons x xs ih =>
    intro q
    simp only [List.foldl_cons]
    by_cases hx : x ∉ visited ∧ x ∉ q.map Prod.fst
    · rw [if_pos hx]
      obtain ⟨e, he, hprop⟩ := ih (q ++ [(x, d + 1)])
      refine ⟨(x, d + 1) :: e, by simpa using he, ?_⟩
      intro p hp
      rcases List.mem_cons.mp hp with hp | hp
      · rw [hp]
      · exact hprop p hp
    · rw [if_neg hx]
      exact ih q

theorem crawlStep_process (c : Crawler) (o : String → FetchOutcome) (s : CrawlState)
    (url : String) (d : Nat) (rest : List (String × Nat))
    (h : s.pending = (url, d) :: rest)
    (hv : url ∉ s.visited) (hd : d ≤ c.max_depth) :
    ∃ new r,
      crawlStep c o s = ⟨url :: s.visited, rest ++ new, s.crawled ++ [r]⟩ ∧
      (∀ p ∈ new, p.2 = d + 1) ∧
      r = (if (o url).success then
            (⟨url, d, save_page_content c (o url).io_ok url,
              some ((o url).markdown.getD 0), true, none⟩ : PageRecord)
          else ⟨url, d, none, none, false, some (o url).error_message⟩) := by
  obtain ⟨v, p, cr⟩ := s
  simp only at h hv
  subst h
  have hd' : ¬ c.max_depth < d := by omega
  cases hs : (o url).success with
  | false =>
    refine ⟨[], ⟨url, d, none, none, false, some (o url).error_message⟩, ?_, by simp, by simp [hs]⟩
    simp [crawlStep, hv, hd', hs]
  | true =>
    by_cases hdep : d < c.max_depth
    · cases hh : (o url).html with
      | none =>
        refine ⟨[], ⟨url, d, save_page_content c (o url).io_ok url,
          some ((o url).markdown.getD 0), true, none⟩, ?_, by simp, by simp [hs]⟩
        simp [crawlStep, hv, hd', hs, hdep, hh]
      | some soup =>
        obtain ⟨e, he, hprop⟩ :=
          enqueue_foldl_spec (url :: v) d (extract_links_from_html c soup url) rest
        refine ⟨e, ⟨url, d, save_page_content c (o url).io_ok url,
          some ((o url).markdown.getD 0), true, none⟩, ?_, hprop, by simp [hs]⟩
        simp [crawlStep, hv, hd', hs, hdep, hh, he]
    · refine ⟨[], ⟨url, d, save_page_content c (o url).io_ok url,
        some ((o url).markdown.getD 0), true, none⟩, ?_, by simp, by simp [hs]⟩
      simp [crawlStep, hv, hd', hs, hdep]

/-- The guarded-loop invariant rule: a property preserved by each executed
iteration holds in the state the loop surrenders. -/
theorem crawlLoop_inv (c : Crawler) (o : String → FetchOutcome)
    {P : CrawlState → Prop}
    (hstep : ∀ s, P s → s.pending ≠ [] → s.crawled.length < c.max_pages →
      P (crawlStep c o s)) :
    ∀ (fuel : Nat) (s : CrawlState), P s → P (crawlLoop c o fuel s) := by
  intro fuel
  induction fuel with
  | zero => intro s hs; exact hs
  | succ n ih =>
    intro s hs
    rw [crawlLoop_succ]
    by_cases hg : s.pending ≠ [] ∧ s.crawled.length < c.max_pages
    · rw [if_pos hg]
      exact ih _ (hstep s hs hg.1 hg.2)
    · rw [if_neg hg]
      exact hs

/-! ## List helpers -/

theorem nodup_snoc {α : Type} (l : List α) (a : α) (h1 : l.Nodup) (h2 : a ∉ l) :
    (l ++ [a]).Nodup := by
  rw [List.nodup_append]
  refine ⟨h1, List.nodup_singleton a, ?_⟩
  intro x hx hxa
  rw [List.mem_singleton.mp hxa] at hx
  exact h2 hx

theorem mem_takeWhile_pred {α : Type} {p : α → Bool} :
    ∀ {l : List α} {x : α}, x ∈ l.takeWhile p → p x = true := by
  intro l
  induction l with
  | nil => intro x hx; simp [List.takeWhile] at hx
  | cons a t ih =>
    intro x hx
    by_cases hpa : p a
    · rw [List.takeWhile_cons, if_pos hpa] at hx
      rcases List.mem_cons.mp hx with hx | hx
      · rwa [hx]
      · exact ih hx
    · rw [List.takeWhile_cons, if_neg hpa] at hx
      simp at hx

theorem takeWhile_of_all {α : Type} {p : α → Bool} :
    ∀ {l : List α}, (∀ x ∈ l, p x = true) → l.takeWhile p = l := by
  intro l
  induction l with
  | nil => intro _; rfl
  | cons a t ih =>
    intro h
    rw [List.takeWhile_cons, if_pos (h a (List.mem_cons_self a t))]
    rw [ih (fun x hx => h x (List.mem_cons_of_mem a hx))]

theorem takeWhile_idem {α : Type} {p : α → Bool} (l : List α) :
    (l.takeWhile p).takeWhile p = l.takeWhile p :=
  takeWhile_of_all (fun _ hx => mem_takeWhile_pred hx)

/-! ## Lemmas about the helpers -/

/-- When the file write fails, `save_page_content` returns `None`
regardless of the URL. -/
theorem save_page_content_io_fail (c : Crawler) (url : String) :
    save_page_content c false url = none := by
  unfold save_page_content
  cases h : get_safe_filename url <;> simp

/-- A list that does not start with `/` matches neither of the two
relative-URL tests of `normalize_url`. -/
theorem take_ne_of_head (l : List Char) (h : l.head? ≠ some '/') :
    l.take 2 ≠ ['/', '/'] ∧ l.take 1 ≠ ['/'] := by
  cases l with
  | nil => simp
  | cons a t =>
    have ha : a ≠ '/' := by
      intro hcontra
      exact h (by rw [hcontra]; rfl)
    constructor
    · intro hcontra
      have : (a :: t).take 2 = a :: t.take 1 := rfl
      rw [this] at hcontra
      exact ha (List.cons.inj hcontra).1
    · intro hcontra
      have : (a :: t).take 1 = a :: t.take 0 := rfl
      rw [this] at hcontra
      exact ha (List.cons.inj hcontra).1

/-- The body of `normalize_url` is the identity on fragment-free text that does
not begin with a slash. -/
theorem normalizeList_fixed (scheme domain l : List Char)
    (hl : ∀ x ∈ l, x ≠ '#') (hhead : l.head? ≠ some '/') :
    normalizeList scheme domain l = l := by
  have htake : l.takeWhile notHash = l :=
    takeWhile_of_all (fun x hx => by simp [notHash, hl x hx])
  have hne := take_ne_of_head l hhead
  simp only [normalizeList, htake]
  rw [if_neg hne.1, if_neg hne.2]

/-- The head of `scheme ++ ':' :: rest` is the head of the scheme, or `:`
when the scheme is empty; either way it is not `/` when the scheme does
not start with `/`. -/
theorem head_scheme_colon (scheme rest : List Char) (hs : scheme.head? ≠ some '/') :
    (scheme ++ ':' :: rest).head? ≠ some '/' := by
  cases scheme with
  | nil => simp
  | cons a t =>
    simpa using hs

/-- The core of C9 on character lists: one application of the normalizer
body reaches a fixed point, provided the configured scheme and domain are
fragment-free and the scheme does not begin with `/` (both guaranteed by
`urlparse` at construction time). -/
theorem normalizeList_idem (scheme domain : List Char)
    (hs1 : ∀ x ∈ scheme, x ≠ '#') (hs2 : scheme.head? ≠ some '/')
    (hd : ∀ x ∈ domain, x ≠ '#') (url : List Char) :
    normalizeList scheme domain (normalizeList scheme domain url) =
      normalizeList scheme domain url := by
  have hu' : ∀ x ∈ url.takeWhile notHash, x ≠ '#' := by
    intro x hx
    have := mem_takeWhile_pred hx
    simpa [notHash] using this
  by_cases h1 : (url.takeWhile notHash).take 2 = ['/', '/']
  · have hinner : normalizeList scheme domain url =
        scheme ++ ':' :: url.takeWhile notHash := by
      simp only [normalizeList]
      rw [if_pos h1]
    rw [hinner]
    apply normalizeList_fixed
    · intro x hx
      rcases List.mem_append.mp hx with hx | hx
      · exact hs1 x hx
      · rcases List.mem_cons.mp hx with hx | hx
        · rw [hx]; decide
        · exact hu' x hx
    · exact head_scheme_colon scheme _ hs2
  · by_cases h2 : (url.takeWhile notHash).take 1 = ['/']
    · have hinner : normalizeList scheme domain url =
          scheme ++ ':' :: '/' :: '/' :: domain ++ url.takeWhile notHash := by
        simp only [normalizeList]
        rw [if_neg h1, if_pos h2]
      rw [hinner]
      apply normalizeList_fixed
      · intro x hx
        rcases List.mem_append.mp hx with hx | hx
        · rcases List.mem_append.mp hx with hx | hx
          · exact hs1 x hx
          · rcases List.mem_cons.mp hx with hx | hx
            · rw [hx]; decide
            · rcases List.mem_cons.mp hx with hx | hx
              · rw [hx]; decide
              · rcases List.mem_cons.mp hx with hx | hx
                · rw [hx]; decide
                · exact hd x hx
        · exact hu' x hx
      · have : (scheme ++ ':' :: '/' :: '/' :: domain).head? ≠ some '/' := by
          cases scheme with
          | nil => simp
          | cons a t => simpa using hs2
        cases hsch : scheme with
        | nil => simp
        | cons a t =>
          have := hs2
          rw [hsch] at this
          simpa using this
    · have hinner : normalizeList scheme domain url = url.takeWhile notHash := by
        simp only [normalizeList]
        rw [if_neg h1, if_neg h2]
      rw [hinner]
      simp only [normalizeList, takeWhile_idem]
      rw [if_neg h1, if_neg h2]

/-- Each iteration of the loop body appends at most one record. -/
theorem crawlStep_crawled_length (c : Crawler) (o : String → FetchOutcome)
    (s : CrawlState) :
    (crawlStep c o s).crawled.length ≤ s.crawled.length + 1 := by
  rcases hpend : s.pending with _ | ⟨⟨url, d⟩, rest⟩
  · rw [crawlStep_nil c o s hpend]
    omega
  · by_cases hv : url ∈ s.visited
    · rw [crawlStep_skip c o s url d rest hpend (Or.inl hv)]
      simp
    · by_cases hd : c.max_depth < d
      · rw [crawlStep_skip c o s url d rest hpend (Or.inr hd)]
        simp
      · obtain ⟨new, r, heq, -, -⟩ :=
          crawlStep_process c o s url d rest hpend hv (by omega)
        rw [heq]
        simp

/-- C10: In every run with maxPages ≥ 0, the total number of PageRecords —
counting both success and failure records — never exceeds maxPages at any
point: the loop only begins an iteration while the total record count is
below `max_pages` and each iteration appends at most one record.  Since
every intermediate state of a run is `crawlLoop` at some smaller fuel,
quantifying over the fuel covers every point of the run. -/
theorem crawl_budget_total (c : Crawler) (o : String → FetchOutcome) (fuel : Nat) :
    (crawl_directory c o fuel).crawled.length ≤ c.max_pages := by
  have h := crawlLoop_inv c o
    (P := fun s => s.crawled.length ≤ c.max_pages)
    (fun s _ _ hlen => by
      have := crawlStep_crawled_length c o s
      omega)
    fuel (initState c) (by simp [initState])
  exact h

/-- C3: each distinct normalized URL gives rise to at most one PageRecord
(the record urls are pairwise distinct), and every recorded URL is in the
visited set — the URL is added to the visited set before its fetch begins,
so a URL whose fetch fails is never processed or recorded a second time. -/
theorem crawl_records_unique (c : Crawler) (o : String → FetchOutcome) (fuel : Nat) :
    ((crawl_directory c o fuel).crawled.map (fun r => r.url)).Nodup ∧
    ((crawl_directory c o fuel).crawled.all
      (fun r => decide (r.url ∈ (crawl_directory c o fuel).visited))) = true := by
  have h := crawlLoop_inv c o
    (P := fun s => (s.crawled.map (fun r => r.url)).Nodup ∧
      ∀ r ∈ s.crawled, r.url ∈ s.visited)
    (fun s hs _ _ => by
      rcases hpend : s.pending with _ | ⟨⟨url, d⟩, rest⟩
      · rw [crawlStep_nil c o s hpend]
        exact hs
      · by_cases hv : url ∈ s.visited
        · rw [crawlStep_skip c o s url d rest hpend (Or.inl hv)]
          exact hs
        · by_cases hd : c.max_depth < d
          · rw [crawlStep_skip c o s url d rest hpend (Or.inr hd)]
            exact hs
          · obtain ⟨new, r, heq, -, hr⟩ :=
              crawlStep_process c o s url d rest hpend hv (by omega)
            have hru : r.url = url := by
              rw [hr]; split <;> rfl
            rw [heq]
            constructor
            · rw [List.map_append]
              apply nodup_snoc _ _ hs.1
              intro hmem
              simp only [List.map_cons, List.map_nil, List.mem_singleton] at hmem
              obtain ⟨r', hr', hr'u⟩ := List.mem_map.mp hmem
              have : r'.url ∈ s.visited := hs.2 r' hr'
              rw [hr'u, hru] at this
              exact hv this
            · intro r' hr'
              rcases List.mem_append.mp hr' with hr' | hr'
              · exact List.mem_cons_of_mem url (hs.2 r' hr')
              · rw [List.mem_singleton.mp hr', hru]
                exact List.mem_cons_self url (s.visited))
    fuel (initState c) (by constructor <;> simp [initState])
  refine ⟨h.1, ?_⟩
  rw [List.all_eq_true]
  intro r hr
  exact decide_eq_true (h.2 r hr)

/-- C4: the seeded root has depth 0; every item a processed page of depth
`d` enqueues has depth exactly `d + 1`; an unvisited item deeper than
`max_depth` is skipped by the defensive depth guard without being fetched
or recorded; and every PageRecord of a run has depth at most `max_depth`
(so no item with depth above the limit is ever processed). -/
theorem crawl_depth_limits (c : Crawler) (o : String → FetchOutcome) :
    (initState c).pending = [(c.directory_url, 0)] ∧
    (∀ (s : CrawlState) (url : String) (d : Nat) (rest : List (String × Nat)),
      s.pending = (url, d) :: rest →
      ∃ new, (crawlStep c o s).pending = rest ++ new ∧ ∀ p ∈ new, p.2 = d + 1) ∧
    (∀ (s : CrawlState) (url : String) (d : Nat) (rest : List (String × Nat)),
      s.pending = (url, d) :: rest → url ∉ s.visited → c.max_depth < d →
      crawlStep c o s = { s with pending := rest }) ∧
    (∀ fuel : Nat, ((crawl_directory c o fuel).crawled.all
      (fun r => decide (r.depth ≤ c.max_depth))) = true) := by
  refine ⟨rfl, ?_, ?_, ?_⟩
  · intro s url d rest hpend
    by_cases hv : url ∈ s.visited
    · refine ⟨[], ?_, by simp⟩
      rw [crawlStep_skip c o s url d rest hpend (Or.inl hv)]
      simp
    · by_cases hd : c.max_depth < d
      · refine ⟨[], ?_, by simp⟩
        rw [crawlStep_skip c o s url d rest hpend (Or.inr hd)]
        simp
      · obtain ⟨new, r, heq, hdepth, -⟩ :=
          crawlStep_process c o s url d rest hpend hv (by omega)
        exact ⟨new, by rw [heq], hdepth⟩
  · intro s url d rest hpend hv hd
    exact crawlStep_skip c o s url d rest hpend (Or.inr hd)
  · intro fuel
    have h := crawlLoop_inv c o
      (P := fun s => ∀ r ∈ s.crawled, r.depth ≤ c.max_depth)
      (fun s hs _ _ => by
        rcases hpend : s.pending with _ | ⟨⟨url, d⟩, rest⟩
        · rw [crawlStep_nil c o s hpend]
          exact hs
        · by_cases hv : url ∈ s.visited
          · rw [crawlStep_skip c o s url d rest hpend (Or.inl hv)]
            exact hs
          · by_cases hd : c.max_depth < d
            · rw [crawlStep_skip c o s url d rest hpend (Or.inr hd)]
              exact hs
            · obtain ⟨new, r, heq, -, hr⟩ :=
                crawlStep_process c o s url d rest hpend hv (by omega)
              have hrd : r.depth = d := by
                rw [hr]; split <;> rfl
              rw [heq]
              intro r' hr'
              rcases List.mem_append.mp hr' with hr' | hr'
              · exact hs r' hr'
              · rw [List.mem_singleton.mp hr', hrd]
                omega)
      fuel (initState c) (by simp [initState])
    rw [List.all_eq_true]
    intro r hr
    exact decide_eq_true (h r hr)

/-- C4 witness: with `max_depth = 1`, the unvisited item `("x", 5)` is
popped and dropped by the depth guard: no fetch, no record, no visited-set
change. -/
theorem crawl_depth_limits_witness :
    crawlStep cEx oEx ⟨[], [("x", 5)], []⟩ = ⟨[], [], []⟩ :=
  (crawl_depth_limits cEx oEx).2.2.1 ⟨[], [("x", 5)], []⟩ "x" 5 [] rfl
    (by decide) (by decide)

/-- C5: the scope filter returns `true` iff the URL parses, its netloc
equals the configured host by case-sensitive string equality, and its path
starts with the configured path prefix; when parsing raises, the filter
returns `false` (fail-closed). -/
theorem scope_filter_spec (c : Crawler) (u : String) :
    (is_in_target_directory c u = true ↔
      ∃ p, urlparse u = some p ∧ p.netloc = c.base_domain ∧
        pyStartsWith p.path c.directory_path = true) ∧
    (urlparse u = none → is_in_target_directory c u = false) := by
  cases hp : urlparse u with
  | none =>
    simp [is_in_target_directory, hp]
  | some p =>
    constructor
    · by_cases hnet : p.netloc = c.base_domain <;>
        simp [is_in_target_directory, hp, hnet]
    · intro h
      exact absurd h (by simp)

/-- C5 witness: an in-scope URL of the example crawler passes the filter,
with the parse, host equality and path prefix discharged concretely. -/
theorem scope_filter_witness :
    is_in_target_directory cEx "https://example.com/docs/a.html" = true :=
  (scope_filter_spec cEx "https://example.com/docs/a.html").1.mpr
    ⟨⟨"https", "example.com", "/docs/a.html", "", ""⟩, by decide, rfl, by decide⟩

/-- C6: link extraction returns `[]` when the HTML parser raises; its
output has no duplicates; and every returned URL is in scope and is the
normalization of the join of some stripped, non-empty href that does not
begin with `javascript:`, `mailto:` or `tel:` (so such hrefs are
discarded). -/
theorem extract_links_contract (c : Crawler) (base : String) (hrefs : List String) :
    extract_links_from_html c none base = [] ∧
    (extract_links_from_html c (some hrefs) base).Nodup ∧
    (∀ u ∈ extract_links_from_html c (some hrefs) base,
      is_in_target_directory c u = true ∧
      ∃ h0 ∈ hrefs, pyStrip h0 ≠ "" ∧ non_navigable (pyStrip h0) = false ∧
        u = normalize_url c (urljoin base (pyStrip h0))) := by
  refine ⟨rfl, ?_, ?_⟩
  · exact List.nodup_dedup _
  · intro u hu
    have hu' := List.mem_dedup.mp hu
    obtain ⟨h0, hh0, hf⟩ := List.mem_filterMap.mp hu'
    dsimp only at hf
    split_ifs at hf with h1 h2
    · have hEq := Option.some.inj hf
      subst hEq
      exact ⟨h2, h0, hh0, h1.1, h1.2, rfl⟩

/-- C6 witness: on a concrete href list the in-scope link is returned and
characterized, the `javascript:` href contributing nothing. -/
theorem extract_links_witness :
    is_in_target_directory cEx "https://example.com/docs/a.html" = true ∧
    ∃ h0 ∈ ["/docs/a.html", "javascript:void(0)"], pyStrip h0 ≠ "" ∧
      non_navigable (pyStrip h0) = false ∧
      "https://example.com/docs/a.html" =
        normalize_url cEx (urljoin "https://example.com/docs/" (pyStrip h0)) :=
  (extract_links_contract cEx "https://example.com/docs/"
    ["/docs/a.html", "javascript:void(0)"]).2.2
    "https://example.com/docs/a.html" (by decide)

/-- C7: the report itemizes exactly one block per PageRecord, and the loop
appends exactly one PageRecord per popped item that is actually processed:
a popped item that is already visited or beyond `max_depth` leaves the
record list unchanged, while a processed item appends exactly one record.
Hence the itemized page entries of the final report correspond one-to-one
with the popped-and-processed WorkItems. -/
theorem report_lines_match_processed (c : Crawler) (o : String → FetchOutcome) :
    (∀ pages : List PageRecord, (report_page_blocks pages).length = pages.length) ∧
    (∀ (s : CrawlState) (url : String) (d : Nat) (rest : List (String × Nat)),
      s.pending = (url, d) :: rest → (url ∈ s.visited ∨ c.max_depth < d) →
      (crawlStep c o s).crawled = s.crawled) ∧
    (∀ (s : CrawlState) (url : String) (d : Nat) (rest : List (String × Nat)),
      s.pending = (url, d) :: rest → url ∉ s.visited → d ≤ c.max_depth →
      ∃ r, (crawlStep c o s).crawled = s.crawled ++ [r]) := by
  refine ⟨?_, ?_, ?_⟩
  · intro pages
    simp [report_page_blocks]
  · intro s url d rest hpend hskip
    rw [crawlStep_skip c o s url d rest hpend hskip]
  · intro s url d rest hpend hv hd
    obtain ⟨new, r, heq, -, -⟩ := crawlStep_process c o s url d rest hpend hv hd
    exact ⟨r, by rw [heq]⟩

/-- C7 witness: a popped item whose URL is already visited produces no
record. -/
theorem report_lines_witness :
    (crawlStep cEx oEx ⟨["u"], [("u", 0)], []⟩).crawled = [] :=
  (report_lines_match_processed cEx oEx).2.1 ⟨["u"], [("u", 0)], []⟩ "u" 0 []
    rfl (Or.inl (by decide))

/-- C8: when the fetch succeeds but persisting raises an I/O error, the
error is contained in `save_page_content` (which returns `None`), the
appended PageRecord carries a null storage path while still recording
`success = True`, and the loop continues: with the budget open, the next
loop step is taken on the successor state rather than aborting. -/
theorem persist_failure_recorded_success (c : Crawler) (o : String → FetchOutcome)
    (s : CrawlState) (url : String) (d : Nat) (rest : List (String × Nat))
    (hpend : s.pending = (url, d) :: rest) (hv : url ∉ s.visited)
    (hd : d ≤ c.max_depth) (hs : (o url).success = true)
    (hio : (o url).io_ok = false) :
    save_page_content c (o url).io_ok url = none ∧
    (crawlStep c o s).crawled = s.crawled ++
      [⟨url, d, none, some ((o url).markdown.getD 0), true, none⟩] ∧
    (∀ fuel : Nat, s.crawled.length < c.max_pages →
      crawlLoop c o (fuel + 1) s = crawlLoop c o fuel (crawlStep c o s)) := by
  have hsave : save_page_content c (o url).io_ok url = none := by
    rw [hio]
    exact save_page_content_io_fail c url
  refine ⟨hsave, ?_, ?_⟩
  · obtain ⟨new, r, heq, -, hr⟩ := crawlStep_process c o s url d rest hpend hv hd
    rw [heq]
    rw [if_pos hs, hsave] at hr
    rw [hr]
  · intro fuel hlen
    rw [crawlLoop_succ, if_pos ⟨by rw [hpend]; simp, hlen⟩]

/-- C8 witness: a successful fetch whose file write fails yields one
success record with a null storage path. -/
theorem persist_failure_witness :
    (crawlStep cEx oSaveFail
      ⟨[], [("https://example.com/docs/a.html", 0)], []⟩).crawled =
      [⟨"https://example.com/docs/a.html", 0, none, some 0, true, none⟩] :=
  (persist_failure_recorded_success cEx oSaveFail
    ⟨[], [("https://example.com/docs/a.html", 0)], []⟩
    "https://example.com/docs/a.html" 0 [] rfl (by decide) (by decide)
    rfl rfl).2.1

/-- C9: URL normalization is idempotent — `normalize(normalize(u)) =
normalize(u)` for every input string `u` — under the construction-time
facts that the configured scheme and domain contain no `#` and the scheme
does not begin with `/` (any scheme/netloc produced by `urlparse`
satisfies these: the fragment is split off before the netloc and a scheme
is alphanumeric with `+`, `-`, `.`). -/
theorem normalize_url_idempotent (c : Crawler)
    (hs1 : ∀ x ∈ c.base_scheme.data, x ≠ '#')
    (hs2 : c.base_scheme.data.head? ≠ some '/')
    (hd : ∀ x ∈ c.base_domain.data, x ≠ '#')
    (u : String) :
    normalize_url c (normalize_url c u) = normalize_url c u := by
  unfold normalize_url
  exact congrArg String.mk (normalizeList_idem _ _ hs1 hs2 hd u.data)

/-- C9 witness: normalizing a fragment-carrying root-relative URL twice
gives the same string as normalizing it once. -/
theorem normalize_url_idempotent_witness :
    normalize_url cEx (normalize_url cEx "/a#b") = normalize_url cEx "/a#b" :=
  normalize_url_idempotent cEx (by decide) (by decide) (by decide) "/a#b"

/-- C1 counterexample: with `max_pages = 2`, the root succeeds and links
two pages, the next fetch fails; after two records (1 success + 1
failure) the loop stops — extra fuel changes nothing — although the
pending queue is nonempty and the success count (1) is still below
`max_pages` (2).  So the loop does **not** terminate "exactly when the
queue is empty or successes reach maxPages": failure records count
toward the budget. -/
theorem crawl_termination_counterexample :
    (crawl_directory cEx oEx 10).pending ≠ [] ∧
    countSuccess (crawl_directory cEx oEx 10) < cEx.max_pages ∧
    crawl_directory cEx oEx 11 = crawl_directory cEx oEx 10 := by
  exact ⟨by decide, by decide, by decide⟩

/-- C1 (amended): the crawl loop terminates exactly when the pending
queue is empty or the **total** number of PageRecords — successes and
failures alike — has reached `max_pages`: when either holds the loop
returns its state unchanged at any fuel, and otherwise it takes another
iteration. -/
theorem crawl_termination_amended (c : Crawler) (o : String → FetchOutcome)
    (s : CrawlState) (fuel : Nat) :
    ((s.pending = [] ∨ c.max_pages ≤ s.crawled.length) → crawlLoop c o fuel s = s) ∧
    (s.pending ≠ [] → s.crawled.length < c.max_pages →
      crawlLoop c o (fuel + 1) s = crawlLoop c o fuel (crawlStep c o s)) := by
  constructor
  · intro h
    cases fuel with
    | zero => rfl
    | succ n =>
      rw [crawlLoop_succ, if_neg]
      rintro ⟨h1, h2⟩
      rcases h with h | h
      · exact h1 h
      · omega
  · intro h1 h2
    rw [crawlLoop_succ, if_pos ⟨h1, h2⟩]

/-- C1 amended witness: on an empty queue the loop is the identity. -/
theorem crawl_termination_amended_witness :
    crawlLoop cEx oEx 5 ⟨[], [], []⟩ = ⟨[], [], []⟩ :=
  (crawl_termination_amended cEx oEx ⟨[], [], []⟩ 5).1 (Or.inl rfl)

/-- C2 (code bug): constructing the crawler from
`'https://example.com/git'` — a directory URL whose path lacks a trailing
`/` — stores `directory_path = "/git"`, which does not end with the
separator, and the scope filter then judges the sibling-directory URL
`'https://example.com/gitx/a.html'` to be in scope.  Line 27 normalizes
`self.directory_url` to end with `/`, but line 48 parses the *original*
argument into `self.directory_path`, so the claimed invariant fails. -/
theorem scope_sibling_code_bug :
    initCrawler "https://example.com/git" 1 50 none = some cGit ∧
    cGit.directory_path = "/git" ∧
    pyEndsWith cGit.directory_path "/" = false ∧
    is_in_target_directory cGit "https://example.com/gitx/a.html" = true := by
  exact ⟨by decide, rfl, by decide, by decide⟩
